import Mathlib

/-!
Shallow embedding of the core of `sbom-manager` (format normalizers,
SPDX tag/value generator, and the SQLite-backed versioned store), together
with proofs about the embedded operations.

Sources embedded:
* `sbom_manager/input.py`  — `SBOMInput.process_file`, `process_spdx_file`,
  `process_spdx_json_file`, `process_csv_file`
* `sbom_manager/generate.py` — `SPDXGenerator` / `SBOMGenerator.generate_spdx`
* `sbom_manager/db.py` — `SBOMDB.initialise_database`, `audit_record`,
  `add_file`, `list_entries` (contents = "all"), `copy_db`
* `sbom_manager/cli.py` — the `--add` flow around `process_file`/`add_file`

Modelling conventions:
* Python strings are Lean `String`s; the handful of `str` methods the source
  uses (`split` on a one-character separator, `strip`, `rstrip("\n")`,
  `lower`, `replace(" ", "-")`, `startswith`-style indexing) are defined
  below over `String.data`, mirroring CPython semantics on ASCII input.
* A Python dict built by the normalizers is an association list
  `List (String × String)`; `d[k]` is `pyGet` (a missing key is a `KeyError`,
  embedded as `Except.error`), `d.get(k, default)` is `pyGetD`.
* Text files are lists of lines.  `readlines` yields each line with its
  trailing newline; the embedded parsers accept arbitrary strings, so both
  the newline-terminated and newline-stripped forms are representable.
* A raised Python exception is `Except.error`; a function that cannot raise
  on the embedded fragment returns its value directly.
* The SQLite database is a `DBState` (the three tables, with the audit table
  reduced to its command-label column).  A connection's uncommitted
  transaction is modelled by building a pending `DBState` from the committed
  one and publishing it only at the point where the source calls
  `self.connection.commit()`; an exception raised before that point leaves
  the committed state untouched (the connection is torn down and the
  transaction rolled back).
* Wall-clock values (`datetime.now`, `uuid.uuid4`, the tool version constant
  from the absent `version.py`) are passed in as explicit parameters.
-/

namespace SbomManager

/-! ### Python string primitives -/

/-- ASCII whitespace as recognised by `str.strip` on the inputs at hand. -/
def isWS (c : Char) : Bool := c = ' ' || c = '\t' || c = '\n' || c = '\r'

/-- `str.split(sep)` for a one-character separator, on character lists:
`"a:b".split(":") = ["a", "b"]`, keeping empty fields. -/
def splitCL (c : Char) : List Char → List (List Char)
  | [] => [[]]
  | x :: xs =>
    if x = c then [] :: splitCL c xs
    else
      match splitCL c xs with
      | [] => [[x]]
      | h :: t => (x :: h) :: t

/-- `str.split(sep)` for a one-character separator. -/
def pySplit (c : Char) (s : String) : List String :=
  (splitCL c s.data).map fun l => ⟨l⟩

/-- `str.strip()` on character lists. -/
def pyStripData (l : List Char) : List Char :=
  ((l.dropWhile isWS).reverse.dropWhile isWS).reverse

/-- `str.strip()`. -/
def pyStrip (s : String) : String := ⟨pyStripData s.data⟩

/-- `str.rstrip(c)` for a one-character argument, on character lists. -/
def pyRstripData (c : Char) (l : List Char) : List Char :=
  (l.reverse.dropWhile (· = c)).reverse

/-- `str.rstrip("\n")`. -/
def pyRstripNl (s : String) : String := ⟨pyRstripData '\n' s.data⟩

/-- `str.lower()` (ASCII). -/
def pyLower (s : String) : String := ⟨s.data.map Char.toLower⟩

/-- `str.replace(" ", "-")`. -/
def pyReplaceSpaceDash (s : String) : String :=
  ⟨s.data.map fun c => if c = ' ' then '-' else c⟩

/-- `os.path.basename` for `/`-separated paths (the component after the
last `/`). -/
def pyBasename (s : String) : String :=
  (pySplit '/' s).getLastD ""

/-! ### Python dicts (the canonical record shape) -/

/-- A Python dict with string keys and values, as built by the normalizers:
an association list in key-insertion order. -/
abbrev PyRecord := List (String × String)

/-- `d[k]`: a missing key raises `KeyError`. -/
def pyGet (d : PyRecord) (k : String) : Except String String :=
  match d.lookup k with
  | some v => .ok v
  | none => .error ("KeyError: " ++ k)

/-- `d.get(k, default)`. -/
def pyGetD (d : PyRecord) (k dflt : String) : String :=
  (d.lookup k).getD dflt

/-- The module dict `{"vendor": .., "product": .., "version": .., "license": ..}`
appended by `process_spdx_file` / `process_spdx_json_file`, whose four keys
are always present. -/
structure Module where
  vendor : String
  product : String
  version : String
  license : String
deriving DecidableEq, Repr

/-- The association-list form of a `Module`, with the keys in the order the
source writes the dict literal. -/
def Module.toRecord (m : Module) : PyRecord :=
  [("vendor", m.vendor), ("product", m.product), ("version", m.version),
   ("license", m.license)]

/-! ### `SBOMInput.process_spdx_file` (tag/value normalizer, input.py:40-65) -/

/-- The loop state of `process_spdx_file`: the accumulated `modules` list and
the `vendor`/`product`/`version`/`license` locals.  In the source `version`
and `license` are first assigned inside the loop; the `""` initial values
below are never read before assignment because every read of `version` or
`license` is guarded by `product != ""`, which forces an earlier
`PackageName` line to have assigned both. -/
structure SpdxState where
  mods : List Module
  vendor : String
  product : String
  version : String
  license : String
deriving DecidableEq, Repr

def spdxInit : SpdxState :=
  { mods := [], vendor := "", product := "", version := "", license := "" }

/-- The guarded append
`if product != "" and version != "": modules.append({...})`. -/
def spdxFlush (st : SpdxState) : List Module :=
  if st.product ≠ "" ∧ st.version ≠ "" then
    st.mods ++ [{ vendor := st.vendor, product := st.product,
                  version := st.version, license := st.license }]
  else st.mods

/-- `line_elements[1]`: raises `IndexError` when the split produced a single
element (a line equal to the bare tag, with no `:`). -/
def pyIndex1 (elements : List String) : Except String String :=
  match elements.get? 1 with
  | some e => .ok e
  | none => .error "IndexError: list index out of range"

/-- `version.split("-")[0]` followed by `version.split("+")[0]`. -/
def stripSuffixes (v : String) : String :=
  (pySplit '+' ((pySplit '-' v).headD "")).headD ""

/-- One iteration of the `for line in lines` loop of `process_spdx_file`.
The source computes `line_elements = line.split(":")` once and tests
`line_elements[0]` against the three tags with three independent `if`s;
since `line_elements[0]` can equal at most one of the three distinct tags,
the `if`/`else` chain below is equivalent.  `line_elements[1]` raises
`IndexError` inside a matched branch when the line has no `:`. -/
def spdxStep (st : SpdxState) (line : String) : Except String SpdxState :=
  if (pySplit ':' line).headD "" = "PackageName" then
    match pyIndex1 (pySplit ':' line) with
    | .error e => .error e
    | .ok e1 =>
      .ok { mods := spdxFlush st, vendor := st.vendor,
            product := pyRstripNl (pyStrip e1), version := "", license := "" }
  else if (pySplit ':' line).headD "" = "PackageVersion" then
    match pyIndex1 (pySplit ':' line) with
    | .error e => .error e
    | .ok e1 =>
      .ok { st with version := stripSuffixes (pyRstripNl (pyStrip e1)) }
  else if (pySplit ':' line).headD "" = "PackageLicenseConcluded" then
    match pyIndex1 (pySplit ':' line) with
    | .error e => .error e
    | .ok e1 => .ok { st with license := pyRstripNl (pyStrip e1) }
  else .ok st

/-- The loop of `process_spdx_file` run from a given state. -/
def processSpdxFrom (st : SpdxState) (lines : List String) :
    Except String SpdxState :=
  lines.foldlM spdxStep st

/-- `SBOMInput.process_spdx_file`, on the lines of the file. -/
def process_spdx_file (lines : List String) : Except String (List Module) := do
  let st ← processSpdxFrom spdxInit lines
  pure (spdxFlush st)

/-! ### `SBOMInput.process_spdx_json_file` (input.py:67-78) -/

/-- One iteration of `for d in data["packages"]`: `d["name"]` and
`d["versionInfo"]` raise `KeyError` when absent; `licenseConcluded`
defaults to `""` via `d.get`. -/
def spdxJsonRecord (d : PyRecord) : Except String Module := do
  let product ← pyGet d "name"
  let version ← pyGet d "versionInfo"
  let vendor := ""
  let license := pyGetD d "licenseConcluded" ""
  pure { vendor, product, version, license }

/-- `SBOMInput.process_spdx_json_file`, given the already-parsed
`data["packages"]` array (the claim premise is that the document-level
JSON parse succeeded).  The loop appends one module per entry; a raised
`KeyError` aborts the whole call. -/
def process_spdx_json_file : List PyRecord → Except String (List Module)
  | [] => .ok []
  | d :: rest => do
    let m ← spdxJsonRecord d
    let ms ← process_spdx_json_file rest
    pure (m :: ms)

/-! ### `SBOMInput.process_csv_file` (input.py:147-169) -/

/-- `line[0]` for the comment test of the CSV and directory normalizers.
`readlines` lines are never empty, so the Python indexing cannot raise;
the `' '` default is never a `#`. -/
def pyFirstChar (s : String) : Char := s.data.headD ' '

/-- `SBOMInput.process_csv_file` on the lines of the file.  The comment
test is `line[0] != "#"`.  Note the source writes the fourth dict key as
`"licnese"`, and that is what is embedded. -/
def process_csv_file (lines : List String) : List PyRecord :=
  lines.foldl
    (fun modules line =>
      if pyFirstChar line ≠ '#' then
        let line_elements := pySplit ',' (pyRstripNl (pyStrip line))
        if line_elements.length = 3 then
          modules ++
            [[("vendor", pyStrip (line_elements.getD 0 "")),
              ("product", pyStrip (line_elements.getD 1 "")),
              ("version", pyStrip (line_elements.getD 2 "")),
              ("licnese", "")]]
        else modules
      else modules)
    []

/-! ### `SBOMInput.process_file` (input.py:32-38) and the cli `--add` flow -/

/-- The readable files: a map from filename to file lines.  `os.path.exists`
is lookup success. -/
abbrev FileSystem := List (String × List String)

/-- `SBOMInput.process_file`: `sbom_data` stays `None` unless the file
exists, in which case the normalizer selected by the dispatch table
(`self.sbom_process[self.sbom_type]`, passed here as `proc`) runs. -/
def process_file (proc : List String → List PyRecord) (fs : FileSystem)
    (filename : String) : Option (List PyRecord) :=
  match fs.lookup filename with
  | some lines => some (proc lines)
  | none => none

/-! ### `SBOMDB` (db.py) -/

/-- A row of `sbom_file`.  `record_count` is NULL (`none`) between the
header `INSERT` and the trailing `UPDATE`. -/
structure FileRow where
  file_id : Nat
  filename : String
  file_version : Nat
  project : String
  description : String
  sbom_type : String
  record_count : Option Nat
  add_date : String
deriving DecidableEq, Repr

/-- A row of `sbom_data`. -/
structure DataRow where
  file_id : Nat
  vendor : String
  product : String
  version : String
  license : String
deriving DecidableEq, Repr

/-- The database: the three tables, rows in insertion (rowid) order; the
audit table is reduced to its `command` column. -/
structure DBState where
  files : List FileRow
  data : List DataRow
  audit : List String
deriving DecidableEq, Repr

/-- `SBOMDB.audit_record`: inserts one audit row and commits. -/
def audit_record (db : DBState) (command_line : String) : DBState :=
  { db with audit := db.audit ++ [command_line] }

/-- `SBOMDB.initialise_database`: drops and recreates all three tables,
commits, then writes the `"initialise"` audit entry. -/
def initialise_database : DBState :=
  audit_record { files := [], data := [], audit := [] } "initialise"

/-- The `find_project` query of `add_file`:
`SELECT count(project) FROM sbom_file WHERE project = ?` (the `project`
column is never NULL in inserted rows, so this is the row count). -/
def countProject (db : DBState) (project : String) : Nat :=
  (db.files.filter fun f => f.project == project).length

/-- The largest existing `sbom_file` rowid. -/
def maxFileId (db : DBState) : Nat :=
  db.files.foldl (fun m f => max m f.file_id) 0

/-- `cursor.lastrowid` after the header insert: SQLite assigns one more
than the largest rowid in the table. -/
def nextFileId (db : DBState) : Nat := maxFileId db + 1

/-- The body of one iteration of the `for data in sbom_data` loop of
`add_file`: `data["license"]` is read first (sentinel-substituted when
empty), then the `INSERT` parameters `data["vendor"].lower()`,
`data["product"].lower()`, `data["version"].lower()` are evaluated in
order; any missing key raises `KeyError`. -/
def normDataRow (fid : Nat) (data : PyRecord) : Except String DataRow := do
  let license ← pyGet data "license"
  let license := if license = "" then "NOASSERTION" else license
  let vendor ← pyGet data "vendor"
  let product ← pyGet data "product"
  let version ← pyGet data "version"
  pure { file_id := fid, vendor := pyLower vendor, product := pyLower product,
         version := pyLower version, license := license }

/-- The full record-insertion loop; the count of rows inserted is the
length of the result, and a `KeyError` aborts at the first bad record. -/
def normDataRows (fid : Nat) : List PyRecord → Except String (List DataRow)
  | [] => .ok []
  | r :: rest => do
    let row ← normDataRow fid r
    let rows ← normDataRows fid rest
    pure (row :: rows)

/-- The `update_file_entry` statement:
`UPDATE sbom_file SET record_count = ? WHERE file_id = ?`. -/
def setRecordCount (files : List FileRow) (fid n : Nat) : List FileRow :=
  files.map fun f =>
    if f.file_id == fid then { f with record_count := some n } else f

/-- `SBOMDB.add_file`.  The argument `db` is the committed state; the
pending transaction is built below and becomes the committed state only at
the single `self.connection.commit()`.  A `KeyError` raised inside the
record loop propagates before the commit, so the committed state is
returned unchanged (the open transaction is discarded).  On success the
`"add"` audit entry is written (a separate open/commit/close) and
`file_version` is returned. -/
def add_file (db : DBState) (filename description project sbom_type : String)
    (sbom_data : List PyRecord) (now : String) : DBState × Except String Nat :=
  -- Here `file_version` is `countProject db project + 1` and the header's
  -- rowid is `nextFileId db`.  The pending transaction inserts the header
  -- row (`record_count` still NULL), runs the record loop, and finally
  -- updates the header's `record_count`; the single commit happens after
  -- the update, so a `KeyError` raised inside the loop leaves the
  -- committed state `db` untouched (the uncommitted transaction is
  -- discarded when the connection is torn down).
  match normDataRows (nextFileId db) sbom_data with
  | .error e => (db, .error e)
  | .ok rows =>
    (audit_record
      { files :=
          setRecordCount
            (db.files ++
              [{ file_id := nextFileId db, filename := pyBasename filename,
                 file_version := countProject db project + 1,
                 project := project, description := description,
                 sbom_type := sbom_type, record_count := none,
                 add_date := now }])
            (nextFileId db) rows.length,
        data := db.data ++ rows,
        audit := db.audit } "add",
     .ok (countProject db project + 1))

/-- The header row a successful `add_file` call leaves behind, with its
final `record_count`. -/
def finalHeader (db : DBState) (filename description project sbom_type : String)
    (count : Nat) (now : String) : FileRow :=
  { file_id := nextFileId db, filename := pyBasename filename,
    file_version := countProject db project + 1, project := project,
    description := description, sbom_type := sbom_type,
    record_count := some count, add_date := now }

/-- One `add_file` call's arguments (with the wall-clock parameter). -/
structure AddCall where
  filename : String
  description : String
  project : String
  sbom_type : String
  records : List PyRecord
  now : String

/-- The state reached by one `add_file` call. -/
def runAdd (db : DBState) (c : AddCall) : DBState :=
  (add_file db c.filename c.description c.project c.sbom_type c.records c.now).1

/-- The state reached by a sequence of `add_file` calls. -/
def runAdds (db : DBState) (calls : List AddCall) : DBState :=
  calls.foldl runAdd db

/-- The `file_version` values recorded for a project, in insertion order. -/
def versionsFor (project : String) (db : DBState) : List Nat :=
  (db.files.filter fun f => f.project == project).map (·.file_version)

/-- A record that `add_file` can insert without raising: all four keys of
the canonical shape are present. -/
def wfRecord (r : PyRecord) : Prop :=
  (r.lookup "license").isSome ∧ (r.lookup "vendor").isSome ∧
  (r.lookup "product").isSome ∧ (r.lookup "version").isSome

instance : DecidablePred wfRecord := fun r => by unfold wfRecord; infer_instance

/-- All records of a call are well-formed. -/
def wfCall (c : AddCall) : Prop := ∀ r ∈ c.records, wfRecord r

instance : DecidablePred wfCall := fun c => by
  unfold wfCall; exact List.decidableBAll _ c.records

/-- The data row `add_file` inserts for a well-formed record. -/
def okRow (fid : Nat) (r : PyRecord) : DataRow :=
  { file_id := fid,
    vendor := pyLower ((r.lookup "vendor").getD ""),
    product := pyLower ((r.lookup "product").getD ""),
    version := pyLower ((r.lookup "version").getD ""),
    license :=
      let l := (r.lookup "license").getD ""
      if l = "" then "NOASSERTION" else l }

/-- The cli `--add` flow (cli.py:224-235): run `process_file`; only when it
returned data (`if sbom_data is not None`) is `add_file` called. -/
def cli_add (proc : List String → List PyRecord) (fs : FileSystem)
    (db : DBState) (filename desc project sbom_type now : String) :
    DBState × Option (Except String Nat) :=
  match process_file proc fs filename with
  | none => (db, none)
  | some sbom_data =>
    ((add_file db filename desc project sbom_type sbom_data now).1,
     some (add_file db filename desc project sbom_type sbom_data now).2)

/-! ### `SBOMDB.list_entries` with `contents = "all"` (db.py:213-279) -/

/-- `FROM sbom_file, sbom_data WHERE sbom_file.file_id = sbom_data.file_id`. -/
def joinRows (db : DBState) : List (FileRow × DataRow) :=
  db.files.flatMap fun f =>
    (db.data.filter fun d => d.file_id == f.file_id).map fun d => (f, d)

/-- The correlated subquery
`(select max(file_version) from sbom_file where project = P)`.
Whenever it is evaluated, `P` is the project of a joined `sbom_file` row,
so the row set is nonempty and the SQL NULL case does not arise. -/
def maxVersion (db : DBState) (p : String) : Nat :=
  ((db.files.filter fun f => f.project == p).map (·.file_version)).foldl max 0

/-- `ORDER BY project ASC, file_version DESC` as a total boolean
preorder on the joined rows. -/
def rowLE (a b : FileRow × DataRow) : Bool :=
  decide (a.1.project < b.1.project) ||
    (a.1.project == b.1.project && b.1.file_version ≤ a.1.file_version)

/-- `SBOMDB.list_entries` for `contents = "all"`: the `list_all` /
`list_all_history` join, the `latest_all` filter added exactly when
neither `history` nor `version` is requested, the optional `project` and
`file_version` filters, the `ORDER BY`, and the trailing `"list"` audit
entry.  The SQL projects columns from the joined rows; the embedding
returns the joined rows themselves. -/
def list_entries_all (db : DBState) (project : String) (history : Bool)
    (version : Option Nat) : DBState × List (FileRow × DataRow) :=
  let rows := joinRows db
  let rows :=
    if !history && version.isNone then
      rows.filter fun (r : FileRow × DataRow) =>
        r.1.file_version == maxVersion db r.1.project
    else rows
  let rows :=
    if project ≠ "" then
      rows.filter fun (r : FileRow × DataRow) => r.1.project == project
    else rows
  let rows :=
    match version with
    | some v =>
      rows.filter fun (r : FileRow × DataRow) => r.1.file_version == v
    | none => rows
  (audit_record db "list", rows.mergeSort rowLE)

/-! ### `SBOMDB.copy_db` (db.py:300-309) -/

/-- `SBOMDB.copy_db`, returning `(backing store, external file)` after the
call.  Export: the `"Export database"` audit entry is written to the store,
then the store file is copied over `filename`.  Import: the
`"Import database"` audit entry is written to the store, then `filename`
is copied over the store file — overwriting the store that just received
the audit entry. -/
def copy_db (db fileDb : DBState) (isExport : Bool) : DBState × DBState :=
  if isExport then
    let db := audit_record db "Export database"
    (db, db)
  else
    let _db := audit_record db "Import database"
    (fileDb, fileDb)

/-! ### `SBOMGenerator.generate_spdx` (generate.py) -/

/-- `generateTag`. -/
def generateTag (tag value : String) : String := tag ++ ": " ++ value

/-- `generateDocumentHeader`: the nine header entries of `self.doc`.
`uuid` stands for `str(uuid.uuid4())`, `time` for the `Created` timestamp
and `toolVersion` for the `VERSION` constant. -/
def generateDocumentHeader (project_name uuid time toolVersion : String) :
    List String :=
  [generateTag "SPDXVersion" "SPDX-2.2",
   generateTag "DataLicense" "CC0-1.0",
   generateTag "SPDXID" "SPDXRef-DOCUMENT",
   generateTag "DocumentName" (pyReplaceSpaceDash project_name),
   generateTag "DocumentNamespace"
     ("http://spdx.org/spdxdocs/" ++ pyReplaceSpaceDash project_name ++ "-"
       ++ uuid),
   generateTag "LicenseListVersion" "3.9",
   generateTag "Creator: Tool" ("SPDX_Generator-" ++ toolVersion),
   generateTag "Created" time,
   generateTag "CreatorComment"
     "<text>This document has been automatically generated.</text>"]

/-- `generatePackageDetails` for one package (nine `self.doc` entries,
including the trailing `generateRelationship`). -/
def generatePackageDetails (package : String) (id : Nat) (version : String) :
    List String :=
  [generateTag "\nPackageName" package,
   generateTag "SPDXID" ("SPDXRef-Package-" ++ toString id),
   generateTag "PackageVersion" version,
   generateTag "PackageDownloadLocation" "NONE",
   generateTag "FilesAnalyzed" "false",
   generateTag "PackageLicenseConcluded" "NOASSERTION",
   generateTag "PackageLicenseDeclared" "NOASSERTION",
   generateTag "PackageCopyrightText" "NOASSERTION",
   generateTag "\nRelationship"
     ("SPDXRef-DOCUMENT CONTAINS SPDXRef-Package-" ++ toString id)]

/-- The `for package in packages` loop of `generate_spdx`, with the `id`
counter (`package["product"]` and `package["version"]` are the `Module`
fields, which the tag/value and JSON normalizers always populate). -/
def generatePackages (i : Nat) : List Module → List String
  | [] => []
  | m :: rest => generatePackageDetails m.product i m.version ++
      generatePackages (i + 1) rest

/-- `SBOMGenerator.generate_spdx`: the full `self.doc` entry list. -/
def generate_spdx (project_name uuid time toolVersion : String)
    (packages : List Module) : List String :=
  generateDocumentHeader project_name uuid time toolVersion ++
    ["\n\n##### Package"] ++ generatePackages 1 packages

/-- The physical lines of the printed document (`show_spdx` prints each
`self.doc` entry on its own line; entries containing `\n` span several
lines).  The result is the newline-stripped line list a reader of the
printed file sees; tag matching and value extraction in
`process_spdx_file` are insensitive to the stripped trailing newline. -/
def docToLines (doc : List String) : List String :=
  doc.flatMap fun e => pySplit '\n' e

/-- Predicate used by the tag/value-normalizer proofs: every emitted module
has a nonempty product and version. -/
def goodMods (ms : List Module) : Prop :=
  ∀ m ∈ ms, m.product ≠ "" ∧ m.version ≠ ""

/-- A string unchanged by `str.strip()` (no leading or trailing
whitespace). -/
def trimFixed (s : String) : Prop := pyStrip s = s

/-- Shape of every product value the tag/value normalizer extracts:
stripped, and free of `:` (it is a field of a `:`-split) and of newlines
(when the source lines carry none). -/
def wfProdVal (s : String) : Prop :=
  trimFixed s ∧ ':' ∉ s.data ∧ '\n' ∉ s.data

/-- Shape of every version value the tag/value normalizer extracts: free of
`:` and newlines, and free of `-` and `+` because the extraction keeps only
the text before the first `-`/`+`.  (It need NOT be `trimFixed`: whitespace
before the first `-` survives, which is what breaks the naive round-trip.) -/
def wfVerVal (s : String) : Prop :=
  ':' ∉ s.data ∧ '\n' ∉ s.data ∧ '-' ∉ s.data ∧ '+' ∉ s.data

/-- Loop-state invariant for the tag/value normalizer. -/
def wfState (st : SpdxState) : Prop :=
  (∀ m ∈ st.mods, wfProdVal m.product ∧ wfVerVal m.version) ∧
  wfProdVal st.product ∧ wfVerVal st.version

/-- The `(product, version)` pairs of a module list — the data the
round-trip property compares. -/
def pairsOf (ms : List Module) : List (String × String) :=
  ms.map fun m => (m.product, m.version)

/-- Everything the generated document's reparse needs of a normalized
module: the shape invariants the tag/value normalizer guarantees, plus
`trimFixed m.version`, which it does not. -/
def roundTripReady (m : Module) : Prop :=
  wfProdVal m.product ∧ m.product ≠ "" ∧ wfVerVal m.version ∧
  m.version ≠ "" ∧ trimFixed m.version

instance : DecidablePred trimFixed := fun s => by
  unfold trimFixed
  infer_instance

/-! ## Helper lemmas about `add_file` -/

instance {ε α : Type} [DecidableEq ε] [DecidableEq α] :
    DecidableEq (Except ε α) := fun a b =>
  match a, b with
  | .ok x, .ok y => decidable_of_iff (x = y) (by simp)
  | .error x, .error y => decidable_of_iff (x = y) (by simp)
  | .ok _, .error _ => isFalse (by simp)
  | .error _, .ok _ => isFalse (by simp)

/-- A well-formed record is inserted as its normalized row. -/
theorem normDataRow_wf (fid : Nat) (r : PyRecord) (h : wfRecord r) :
    normDataRow fid r = Except.ok (okRow fid r) := by
  obtain ⟨h1, h2, h3, h4⟩ := h
  obtain ⟨lic, hlic⟩ := Option.isSome_iff_exists.mp h1
  obtain ⟨ven, hven⟩ := Option.isSome_iff_exists.mp h2
  obtain ⟨prod, hprod⟩ := Option.isSome_iff_exists.mp h3
  obtain ⟨ver, hver⟩ := Option.isSome_iff_exists.mp h4
  simp [normDataRow, pyGet, okRow, hlic, hven, hprod, hver,
    Bind.bind, Except.bind, pure, Except.pure]

/-- The record loop on a well-formed record list inserts exactly the
normalized rows. -/
theorem normDataRows_wf (fid : Nat) (rs : List PyRecord)
    (h : ∀ r ∈ rs, wfRecord r) :
    normDataRows fid rs = Except.ok (rs.map (okRow fid)) := by
  induction rs with
  | nil => rfl
  | cons r rest ih =>
    have hr := normDataRow_wf fid r (h r (by simp))
    have hrest := ih fun r hr => h r (by simp [hr])
    simp [normDataRows, hr, hrest, Bind.bind, Except.bind, pure, Except.pure]

theorem le_foldl_max (l : List FileRow) (a : Nat) :
    a ≤ l.foldl (fun m g => max m g.file_id) a := by
  induction l generalizing a with
  | nil => exact le_rfl
  | cons f rest ih => exact le_trans (le_max_left a f.file_id) (ih _)

theorem file_id_le_foldl (l : List FileRow) (a : Nat) (f : FileRow)
    (h : f ∈ l) : f.file_id ≤ l.foldl (fun m g => max m g.file_id) a := by
  induction l generalizing a with
  | nil => cases h
  | cons g rest ih =>
    rw [List.foldl_cons]
    cases h with
    | head => exact le_trans (le_max_right a _) (le_foldl_max rest _)
    | tail _ h => exact ih _ h

/-- Every stored rowid is bounded by `maxFileId`. -/
theorem file_id_le_maxFileId (db : DBState) (f : FileRow) (h : f ∈ db.files) :
    f.file_id ≤ maxFileId db :=
  file_id_le_foldl db.files 0 f h

/-- The `record_count` `UPDATE` touches only the freshly inserted header
row when its rowid is not already in the table. -/
theorem setRecordCount_append_fresh (files : List FileRow) (h : FileRow)
    (n fid : Nat) (hid : h.file_id = fid)
    (hfresh : ∀ f ∈ files, f.file_id ≠ fid) :
    setRecordCount (files ++ [h]) fid n =
      files ++ [{ h with record_count := some n }] := by
  unfold setRecordCount
  rw [List.map_append]
  congr 1
  · induction files with
    | nil => rfl
    | cons f rest ih =>
      have hf : (f.file_id == fid) = false := by
        simp [hfresh f (by simp)]
      simp only [List.map_cons, hf, Bool.false_eq_true, if_false]
      rw [ih fun g hg => hfresh g (by simp [hg])]
  · simp [hid]

/-- Shape of a successful `add_file` call. -/
theorem add_file_ok (db : DBState)
    (fn desc proj ty : String) (recs : List PyRecord) (now : String)
    (hwf : ∀ r ∈ recs, wfRecord r) :
    add_file db fn desc proj ty recs now =
      ({ files := db.files ++ [finalHeader db fn desc proj ty recs.length now],
         data := db.data ++ recs.map (okRow (nextFileId db)),
         audit := db.audit ++ ["add"] },
       Except.ok (countProject db proj + 1)) := by
  have hrows := normDataRows_wf (nextFileId db) recs hwf
  have hfresh : ∀ f ∈ db.files, f.file_id ≠ nextFileId db := by
    intro f hf
    have := file_id_le_maxFileId db f hf
    unfold nextFileId
    omega
  have hset := setRecordCount_append_fresh db.files
    { file_id := nextFileId db, filename := pyBasename fn,
      file_version := countProject db proj + 1, project := proj,
      description := desc, sbom_type := ty, record_count := none,
      add_date := now }
    (recs.map (okRow (nextFileId db))).length (nextFileId db) rfl hfresh
  simp only [add_file, hrows, audit_record, finalHeader]
  rw [hset]
  simp

/-! ## C3 — `add_file` is atomic -/

/-- C3: `addFile` is atomic: on every input the call either leaves the
committed store exactly as it was (returning the `KeyError`), or persists
the file header row (with its final `record_count`), all normalized data
rows, and the `"add"` audit entry together. -/
theorem addFile_atomic (db : DBState) (fn desc proj ty : String)
    (recs : List PyRecord) (now : String) :
    (∃ e, (add_file db fn desc proj ty recs now).2 = Except.error e ∧
          (add_file db fn desc proj ty recs now).1 = db) ∨
    (∃ rows, normDataRows (nextFileId db) recs = Except.ok rows ∧
      (add_file db fn desc proj ty recs now).1 =
        { files := db.files ++ [finalHeader db fn desc proj ty rows.length now],
          data := db.data ++ rows,
          audit := db.audit ++ ["add"] } ∧
      (add_file db fn desc proj ty recs now).2 =
        Except.ok (countProject db proj + 1)) := by
  have hfresh : ∀ f ∈ db.files, f.file_id ≠ nextFileId db := by
    intro f hf
    have := file_id_le_maxFileId db f hf
    unfold nextFileId
    omega
  cases hrows : normDataRows (nextFileId db) recs with
  | error e =>
    left
    refine ⟨e, ?_, ?_⟩ <;> simp [add_file, hrows]
  | ok rows =>
    right
    have hset := setRecordCount_append_fresh db.files
      { file_id := nextFileId db, filename := pyBasename fn,
        file_version := countProject db proj + 1, project := proj,
        description := desc, sbom_type := ty, record_count := none,
        add_date := now }
      rows.length (nextFileId db) rfl hfresh
    refine ⟨rows, rfl, ?_, ?_⟩
    · simp only [add_file, hrows, audit_record, finalHeader]
      rw [hset]
    · simp [add_file, hrows]

/-! ## C4 — row normalization and record count -/

/-- C4: for well-formed records, `add_file` persists each record with
`vendor`/`product`/`version` lowercased and an empty `license` replaced by
`"NOASSERTION"` (otherwise kept as supplied) — see `okRow` — and the file
header's `record_count` is exactly the number of rows inserted. -/
theorem addFile_row_normalization (db : DBState) (fn desc proj ty : String)
    (recs : List PyRecord) (now : String)
    (hwf : ∀ r ∈ recs, wfRecord r) :
    add_file db fn desc proj ty recs now =
      ({ files := db.files ++ [finalHeader db fn desc proj ty recs.length now],
         data := db.data ++ recs.map (okRow (nextFileId db)),
         audit := db.audit ++ ["add"] },
       Except.ok (countProject db proj + 1)) :=
  add_file_ok db fn desc proj ty recs now hwf

/-- C4 witness: one concrete record with uppercase fields and an empty
license is stored lowercased with the `"NOASSERTION"` sentinel, and the
header records a count of 1. -/
theorem addFile_row_normalization_witness :
    (∀ r ∈ [[("vendor", "ACME"), ("product", "Widget"), ("version", "1.0B"),
             ("license", "")]], wfRecord r) ∧
    add_file initialise_database "f.spdx" "d" "P" "spdx"
        [[("vendor", "ACME"), ("product", "Widget"), ("version", "1.0B"),
          ("license", "")]] "t" =
      ({ files := [⟨1, "f.spdx", 1, "P", "d", "spdx", some 1, "t"⟩],
         data := [⟨1, "acme", "widget", "1.0b", "NOASSERTION"⟩],
         audit := ["initialise", "add"] },
       Except.ok 1) :=
  ⟨by decide,
   by
    rw [addFile_row_normalization initialise_database "f.spdx" "d" "P" "spdx"
      [[("vendor", "ACME"), ("product", "Widget"), ("version", "1.0B"),
        ("license", "")]] "t" (by decide)]
    decide⟩

/-! ## Helper lemmas about per-project versions -/

theorem setRC_project (f : FileRow) (fid n : Nat) :
    ((if f.file_id == fid then { f with record_count := some n }
      else f) : FileRow).project = f.project := by
  split <;> rfl

theorem setRC_version (f : FileRow) (fid n : Nat) :
    ((if f.file_id == fid then { f with record_count := some n }
      else f) : FileRow).file_version = f.file_version := by
  split <;> rfl

/-- The `record_count` `UPDATE` changes neither `project` nor
`file_version` of any row. -/
theorem filter_map_setRecordCount (files : List FileRow) (fid n : Nat)
    (P : String) :
    (((setRecordCount files fid n).filter fun f => f.project == P).map
        (·.file_version)) =
      ((files.filter fun f => f.project == P).map (·.file_version)) := by
  induction files with
  | nil => rfl
  | cons f rest ih =>
    simp only [setRecordCount] at ih ⊢
    rw [List.map_cons, List.filter_cons, List.filter_cons, setRC_project]
    by_cases hp : (f.project == P) = true
    · rw [if_pos hp, if_pos hp, List.map_cons, List.map_cons, setRC_version,
        ih]
    · rw [if_neg hp, if_neg hp, ih]

theorem countProject_eq_length (db : DBState) (P : String) :
    countProject db P = (versionsFor P db).length := by
  simp [countProject, versionsFor]

/-- An `add_file` call for a different project never changes a project's
recorded versions (whether the call succeeds or raises). -/
theorem versionsFor_runAdd_ne (db : DBState) (c : AddCall) (P : String)
    (h : ¬ c.project = P) : versionsFor P (runAdd db c) = versionsFor P db := by
  cases hrows : normDataRows (nextFileId db) c.records with
  | error e => simp [runAdd, add_file, hrows]
  | ok rows =>
    simp only [runAdd, add_file, hrows, audit_record]
    unfold versionsFor
    rw [filter_map_setRecordCount, List.filter_append]
    simp [h]

/-- A successful `add_file` call for project `P` appends exactly the
version `countProject db P + 1` to `P`'s recorded versions. -/
theorem versionsFor_runAdd_eq (db : DBState) (c : AddCall) (P : String)
    (hwf : wfCall c) (h : c.project = P) :
    versionsFor P (runAdd db c) = versionsFor P db ++ [countProject db P + 1] := by
  unfold runAdd
  rw [add_file_ok db c.filename c.description c.project c.sbom_type c.records
    c.now hwf]
  unfold versionsFor finalHeader
  simp [List.filter_append, h]

/-- Induction step for version contiguity: if a store's versions for `P`
are `1..n`, then after any well-formed call sequence they are `1..n+k`
where `k` counts the calls for `P`. -/
theorem runAdds_versions (calls : List AddCall) (P : String) :
    ∀ db : DBState, (∀ c ∈ calls, wfCall c) →
    versionsFor P db = List.range' 1 (countProject db P) →
    versionsFor P (runAdds db calls) =
      List.range' 1 (countProject db P + calls.countP fun c => c.project == P) := by
  induction calls with
  | nil =>
    intro db _ inv
    simpa [runAdds] using inv
  | cons c calls ih =>
    intro db hwf inv
    have hc := hwf c (by simp)
    have hstep : runAdds db (c :: calls) = runAdds (runAdd db c) calls := by
      simp [runAdds]
    rw [hstep]
    by_cases hp : c.project = P
    · have h1 := versionsFor_runAdd_eq db c P hc hp
      have hcount : countProject (runAdd db c) P = countProject db P + 1 := by
        rw [countProject_eq_length, h1, countProject_eq_length db P]
        simp
      have inv' : versionsFor P (runAdd db c) =
          List.range' 1 (countProject (runAdd db c) P) := by
        rw [h1, inv, hcount, List.range'_concat]
        simp [Nat.add_comm]
      have := ih (runAdd db c) (fun d hd => hwf d (by simp [hd])) inv'
      rw [this, hcount]
      have harith : countProject db P + 1 +
            List.countP (fun c => c.project == P) calls =
          countProject db P +
            List.countP (fun c => c.project == P) (c :: calls) := by
        rw [List.countP_cons]
        simp [hp]
        omega
      rw [harith]
    · have h1 := versionsFor_runAdd_ne db c P hp
      have hcount : countProject (runAdd db c) P = countProject db P := by
        rw [countProject_eq_length, h1, countProject_eq_length db P]
      have inv' : versionsFor P (runAdd db c) =
          List.range' 1 (countProject (runAdd db c) P) := by
        rw [h1, inv, hcount]
      have := ih (runAdd db c) (fun d hd => hwf d (by simp [hd])) inv'
      rw [this, hcount]
      have harith : countProject db P +
            List.countP (fun c => c.project == P) calls =
          countProject db P +
            List.countP (fun c => c.project == P) (c :: calls) := by
        rw [List.countP_cons]
        simp [hp]
      rw [harith]

/-! ## C1 — per-project version counter -/

/-- C1: a successful `add_file` call returns
`count of sbom_file rows for the project + 1`; starting from an initialised
store, any well-formed call sequence leaves project `P` with `file_version`
values exactly `1..K` in insertion order, where `K` is the number of calls
for `P`; and a call for a different project never changes `P`'s versions. -/
theorem addFile_version_contiguous :
    (∀ (db : DBState) (fn desc proj ty : String) (recs : List PyRecord)
        (now : String) (v : Nat),
        (add_file db fn desc proj ty recs now).2 = Except.ok v →
        v = countProject db proj + 1) ∧
    (∀ (calls : List AddCall) (P : String), (∀ c ∈ calls, wfCall c) →
        versionsFor P (runAdds initialise_database calls) =
          List.range' 1 (calls.countP fun c => c.project == P)) ∧
    (∀ (db : DBState) (c : AddCall) (P : String), c.project ≠ P →
        versionsFor P (runAdd db c) = versionsFor P db) := by
  refine ⟨?_, ?_, ?_⟩
  · intro db fn desc proj ty recs now v h
    unfold add_file at h
    cases hrows : normDataRows (nextFileId db) recs <;>
      simp [hrows] at h
    exact h.symm
  · intro calls P h
    have h0 : countProject initialise_database P = 0 := rfl
    have := runAdds_versions calls P initialise_database h (by rw [h0]; rfl)
    rw [h0] at this
    simpa using this
  · exact versionsFor_runAdd_ne

/-- C1 witness: two calls for project `P` interleaved with one for `Q`
leave `P` with versions `[1, 2]`. -/
theorem addFile_version_contiguous_witness :
    versionsFor "P" (runAdds initialise_database
      [⟨"a", "d", "P", "spdx", [], "t1"⟩, ⟨"b", "d", "Q", "spdx", [], "t2"⟩,
       ⟨"c", "d", "P", "spdx", [], "t3"⟩]) = [1, 2] := by
  rw [addFile_version_contiguous.2.1
    [⟨"a", "d", "P", "spdx", [], "t1"⟩, ⟨"b", "d", "Q", "spdx", [], "t2"⟩,
     ⟨"c", "d", "P", "spdx", [], "t3"⟩] "P" (by decide)]
  rfl

/-! ## C6 — malformed individual records in the JSON normalizer -/

/-- C6 counterexample: a `packages` entry without a `versionInfo` field
makes `process_spdx_json_file` raise `KeyError` — the record is not
skipped and normalization does not continue. -/
theorem spdx_json_missing_key_counterexample :
    process_spdx_json_file [[("name", "foo")]] =
      Except.error "KeyError: versionInfo" := by rfl

/-- C6 amended: a package entry missing `name` or `versionInfo` causes the
whole `process_spdx_json_file` call to fail with a `KeyError`; the
malformed record is not skipped and the remaining records are not
processed. -/
theorem spdx_json_malformed_raises (packages : List PyRecord)
    (h : ∃ d ∈ packages,
      (d.lookup "name").isNone ∨ (d.lookup "versionInfo").isNone) :
    ∃ e, process_spdx_json_file packages = Except.error e := by
  induction packages with
  | nil =>
    obtain ⟨d, hd, _⟩ := h
    cases hd
  | cons d rest ih =>
    obtain ⟨d0, hd0, hbad⟩ := h
    cases hname : d.lookup "name" with
    | none =>
      exact ⟨"KeyError: name",
        by simp [process_spdx_json_file, spdxJsonRecord, pyGet, hname,
          Bind.bind, Except.bind]⟩
    | some nm =>
      cases hver : d.lookup "versionInfo" with
      | none =>
        exact ⟨"KeyError: versionInfo",
          by simp [process_spdx_json_file, spdxJsonRecord, pyGet, hname,
            hver, Bind.bind, Except.bind]⟩
      | some vr =>
        have hrest : ∃ d0 ∈ rest,
            (d0.lookup "name").isNone ∨ (d0.lookup "versionInfo").isNone := by
          cases hd0 with
          | head => simp [hname, hver] at hbad
          | tail _ hmem => exact ⟨d0, hmem, hbad⟩
        obtain ⟨e, he⟩ := ih hrest
        exact ⟨e,
          by simp [process_spdx_json_file, spdxJsonRecord, pyGet, hname,
            hver, he, pyGetD, Bind.bind, Except.bind, pure, Except.pure]⟩

/-- C6 witness: a package entry missing `name` aborts the call. -/
theorem spdx_json_malformed_raises_witness :
    ∃ e, process_spdx_json_file [[("versionInfo", "1")]] = Except.error e :=
  spdx_json_malformed_raises [[("versionInfo", "1")]]
    ⟨[("versionInfo", "1")], by simp, by decide⟩

/-! ## C7 — the CSV normalizer's license key -/

/-- C7: on the claimed input the CSV normalizer drops the `#` comment line
and emits the two trimmed three-column records, but writes the fourth key
as `"licnese"` (a typo in the source), so the records carry no `"license"`
field at all — and `add_file` consequently raises `KeyError: license` on
them instead of storing anything. -/
theorem csv_license_key_typo :
    process_csv_file ["acme,widget,1.2\n", "#comment\n", "acme,sprocket,2.0\n"] =
      [[("vendor", "acme"), ("product", "widget"), ("version", "1.2"),
        ("licnese", "")],
       [("vendor", "acme"), ("product", "sprocket"), ("version", "2.0"),
        ("licnese", "")]] ∧
    List.lookup "license"
      [("vendor", "acme"), ("product", "widget"), ("version", "1.2"),
       ("licnese", "")] = none ∧
    add_file initialise_database "f.csv" "d" "P" "csv"
        (process_csv_file
          ["acme,widget,1.2\n", "#comment\n", "acme,sprocket,2.0\n"]) "t" =
      (initialise_database, Except.error "KeyError: license") := by
  refine ⟨by decide, by decide, by decide⟩

/-! ## C8 — nonexistent input files -/

/-- C8 counterexample: for a path that does not exist, `process_file`
returns `None` — it succeeds with a null result instead of failing with
any error. -/
theorem process_file_missing_counterexample :
    process_file process_csv_file [("present.csv", ["a,b,c"])]
      "missing.csv" = none := by decide

/-- C8 amended: for every file path that does not exist, `process_file`
returns `None` without raising any error, and the cli `--add` flow then
skips `add_file` entirely, leaving the store state unaffected. -/
theorem process_file_missing_returns_none
    (proc : List String → List PyRecord) (fs : FileSystem) (fn : String)
    (h : fs.lookup fn = none) :
    process_file proc fs fn = none ∧
    ∀ (db : DBState) (desc proj ty now : String),
      cli_add proc fs db fn desc proj ty now = (db, none) := by
  constructor
  · simp [process_file, h]
  · intro db desc proj ty now
    simp [cli_add, process_file, h]

/-- C8 witness: a concrete missing path leaves a concrete store unchanged. -/
theorem process_file_missing_returns_none_witness :
    cli_add process_csv_file [] initialise_database "x.csv" "d" "P" "csv"
      "t" = (initialise_database, none) :=
  (process_file_missing_returns_none process_csv_file [] "x.csv" rfl).2
    initialise_database "d" "P" "csv" "t"

/-! ## C9 — the import audit entry is overwritten -/

/-- C9: `copy_db` in the import direction writes the `"Import database"`
audit entry into the store that is about to be overwritten, then replaces
the store with the imported file; the resulting store therefore contains
zero `"Import database"` entries (here the imported file had none), not
exactly one.  The export direction, by contrast, does retain its entry. -/
theorem copy_db_import_audit_lost :
    (copy_db ⟨[], [], ["initialise"]⟩ ⟨[], [], ["initialise"]⟩ false).1 =
      ⟨[], [], ["initialise"]⟩ ∧
    ((copy_db ⟨[], [], ["initialise"]⟩ ⟨[], [], ["initialise"]⟩ false).1.audit.count
      "Import database") = 0 ∧
    ((copy_db ⟨[], [], ["initialise"]⟩ ⟨[], [], ["initialise"]⟩ true).1.audit.count
      "Export database") = 1 := by
  refine ⟨by decide, by decide, by decide⟩

/-! ## C10 — dropped tag/value blocks and nonempty fields -/

theorem goodMods_flush (st : SpdxState) (h : goodMods st.mods) :
    goodMods (spdxFlush st) := by
  unfold spdxFlush
  split
  case isTrue hc =>
    intro m hm
    rcases List.mem_append.mp hm with hm | hm
    · exact h m hm
    · rcases List.mem_singleton.mp hm with rfl
      exact hc
  case isFalse _ => exact h

/-- One parser step preserves the nonempty-fields invariant of the
accumulated modules. -/
theorem spdxStep_goodMods (st : SpdxState) (line : String) (st' : SpdxState)
    (h : spdxStep st line = Except.ok st') (hg : goodMods st.mods) :
    goodMods st'.mods := by
  unfold spdxStep at h
  by_cases h1 : (pySplit ':' line).headD "" = "PackageName"
  · rw [if_pos h1] at h
    cases hidx : pyIndex1 (pySplit ':' line) with
    | error e => rw [hidx] at h; cases h
    | ok e1 =>
      rw [hidx] at h
      injection h with h
      rw [← h]
      exact goodMods_flush st hg
  · rw [if_neg h1] at h
    by_cases h2 : (pySplit ':' line).headD "" = "PackageVersion"
    · rw [if_pos h2] at h
      cases hidx : pyIndex1 (pySplit ':' line) with
      | error e => rw [hidx] at h; cases h
      | ok e1 =>
        rw [hidx] at h
        injection h with h
        rw [← h]
        exact hg
    · rw [if_neg h2] at h
      by_cases h3 : (pySplit ':' line).headD "" = "PackageLicenseConcluded"
      · rw [if_pos h3] at h
        cases hidx : pyIndex1 (pySplit ':' line) with
        | error e => rw [hidx] at h; cases h
        | ok e1 =>
          rw [hidx] at h
          injection h with h
          rw [← h]
          exact hg
      · rw [if_neg h3] at h
        injection h with h
        rw [← h]
        exact hg

/-- The whole parser loop preserves the invariant. -/
theorem processSpdxFrom_goodMods (lines : List String) :
    ∀ st st' : SpdxState, processSpdxFrom st lines = Except.ok st' →
      goodMods st.mods → goodMods st'.mods := by
  induction lines with
  | nil =>
    intro st st' h hg
    simp [processSpdxFrom, List.foldlM, pure, Except.pure] at h
    rwa [← h]
  | cons l rest ih =>
    intro st st' h hg
    rw [processSpdxFrom, List.foldlM_cons] at h
    cases hstep : spdxStep st l with
    | error e => simp [hstep, Bind.bind, Except.bind] at h
    | ok st1 =>
      simp only [hstep, Bind.bind, Except.bind] at h
      exact ih st1 st' h (spdxStep_goodMods st l st1 hstep hg)

/-- C10: every module the tag/value normalizer emits has a nonempty
product and a nonempty version; and a `PackageName` block never followed
by a nonempty `PackageVersion` is silently dropped, so two `PackageName`
tags can yield a single record. -/
theorem spdx_tag_nonempty_fields :
    (∀ (lines : List String) (mods : List Module),
        process_spdx_file lines = Except.ok mods →
        ∀ m ∈ mods, m.product ≠ "" ∧ m.version ≠ "") ∧
    process_spdx_file
        ["PackageName: alpha", "PackageName: beta", "PackageVersion: 1.0"] =
      Except.ok [⟨"", "beta", "1.0", ""⟩] := by
  constructor
  · intro lines mods h m hm
    unfold process_spdx_file at h
    cases hst : processSpdxFrom spdxInit lines with
    | error e => simp [hst, Bind.bind, Except.bind] at h
    | ok st =>
      simp only [hst, Bind.bind, Except.bind, pure, Except.pure,
        Except.ok.injEq] at h
      have hg := processSpdxFrom_goodMods lines spdxInit st hst
        (by intro m hm; cases hm)
      exact goodMods_flush st hg m (h ▸ hm)
  · decide

/-- C10 witness: the invariant applied to a concrete parse. -/
theorem spdx_tag_nonempty_fields_witness :
    (Module.mk "" "p" "1" "").product ≠ "" ∧
    (Module.mk "" "p" "1" "").version ≠ "" :=
  spdx_tag_nonempty_fields.1 ["PackageName: p", "PackageVersion: 1"]
    [⟨"", "p", "1", ""⟩] (by decide) ⟨"", "p", "1", ""⟩ (by decide)

/-! ## C2 — `list_entries` query semantics -/

theorem mem_joinRows (db : DBState) (r : FileRow × DataRow) :
    r ∈ joinRows db ↔
      r.1 ∈ db.files ∧ r.2 ∈ db.data ∧ r.2.file_id = r.1.file_id := by
  unfold joinRows
  rw [List.mem_flatMap]
  constructor
  · rintro ⟨f, hf, hr⟩
    rw [List.mem_map] at hr
    obtain ⟨d, hd, rfl⟩ := hr
    rw [List.mem_filter] at hd
    exact ⟨hf, hd.1, by simpa using hd.2⟩
  · rintro ⟨h1, h2, h3⟩
    refine ⟨r.1, h1, ?_⟩
    rw [List.mem_map]
    exact ⟨r.2, List.mem_filter.mpr ⟨h2, by simpa using h3⟩, rfl⟩

/-- Which joined rows `list_entries` (contents `"all"`) returns, for every
combination of the `history`, `project` and `version` arguments. -/
theorem mem_list_entries_all (db : DBState) (project : String)
    (history : Bool) (version : Option Nat) (r : FileRow × DataRow) :
    r ∈ (list_entries_all db project history version).2 ↔
      (r.1 ∈ db.files ∧ r.2 ∈ db.data ∧ r.2.file_id = r.1.file_id ∧
       ((!history && version.isNone) = true →
          r.1.file_version = maxVersion db r.1.project) ∧
       (project ≠ "" → r.1.project = project) ∧
       (∀ v, version = some v → r.1.file_version = v)) := by
  have hjr := mem_joinRows db r
  by_cases hp : project = "" <;>
    cases version <;>
      cases history <;>
        simp_all [list_entries_all, List.mem_mergeSort, List.mem_filter,
          and_assoc] <;>
        tauto

theorem rowLE_trans (a b c : FileRow × DataRow) (h1 : rowLE a b = true)
    (h2 : rowLE b c = true) : rowLE a c = true := by
  simp only [rowLE, Bool.or_eq_true, decide_eq_true_eq, Bool.and_eq_true,
    beq_iff_eq] at *
  rcases h1 with h1 | ⟨h1e, h1v⟩ <;> rcases h2 with h2 | ⟨h2e, h2v⟩
  · exact Or.inl (lt_trans h1 h2)
  · exact Or.inl (h2e ▸ h1)
  · exact Or.inl (h1e ▸ h2)
  · exact Or.inr ⟨h1e.trans h2e, le_trans h2v h1v⟩

theorem rowLE_total (a b : FileRow × DataRow) :
    (rowLE a b || rowLE b a) = true := by
  simp only [rowLE, Bool.or_eq_true, decide_eq_true_eq, Bool.and_eq_true,
    beq_iff_eq]
  rcases lt_trichotomy a.1.project b.1.project with h | h | h
  · exact Or.inl (Or.inl h)
  · rcases Nat.le_total b.1.file_version a.1.file_version with hv | hv
    · exact Or.inl (Or.inr ⟨h, hv⟩)
    · exact Or.inr (Or.inr ⟨h.symm, hv⟩)
  · exact Or.inr (Or.inl h)

/-- C2: with `history = false` and no `version`, `list_entries` (contents
`"all"`) returns exactly the joined rows whose `file_version` is their own
project's maximum; with `history = true` it returns the joined rows of all
versions (of the requested project) ordered by `file_version` descending;
and an explicit `version` argument overrides the latest-only default,
returning exactly the rows with that `file_version`. -/
theorem listEntries_latest_default :
    (∀ (db : DBState) (project : String) (r : FileRow × DataRow),
        r ∈ (list_entries_all db project false none).2 ↔
          (r.1 ∈ db.files ∧ r.2 ∈ db.data ∧ r.2.file_id = r.1.file_id ∧
           r.1.file_version = maxVersion db r.1.project ∧
           (project ≠ "" → r.1.project = project))) ∧
    (∀ (db : DBState) (P : String) (r : FileRow × DataRow), P ≠ "" →
        (r ∈ (list_entries_all db P true none).2 ↔
          (r.1 ∈ db.files ∧ r.2 ∈ db.data ∧ r.2.file_id = r.1.file_id ∧
           r.1.project = P))) ∧
    (∀ (db : DBState) (P : String), P ≠ "" →
        ((list_entries_all db P true none).2).Pairwise
          (fun a b => b.1.file_version ≤ a.1.file_version)) ∧
    (∀ (db : DBState) (project : String) (v : Nat) (r : FileRow × DataRow),
        r ∈ (list_entries_all db project false (some v)).2 ↔
          (r.1 ∈ db.files ∧ r.2 ∈ db.data ∧ r.2.file_id = r.1.file_id ∧
           r.1.file_version = v ∧
           (project ≠ "" → r.1.project = project))) := by
  refine ⟨?_, ?_, ?_, ?_⟩
  · intro db project r
    rw [mem_list_entries_all]
    simp
  · intro db P r hP
    rw [mem_list_entries_all]
    simp [hP]
  · intro db P hP
    have hsorted := List.sorted_mergeSort rowLE_trans rowLE_total
      ((joinRows db).filter fun (r : FileRow × DataRow) => r.1.project == P)
    have hres : (list_entries_all db P true none).2 =
        ((joinRows db).filter fun (r : FileRow × DataRow) =>
          r.1.project == P).mergeSort rowLE := by
      simp [list_entries_all, hP]
    rw [hres]
    have hmemP : ∀ r ∈ ((joinRows db).filter
        fun (r : FileRow × DataRow) => r.1.project == P).mergeSort rowLE,
        r.1.project = P := by
      intro r hr
      rw [List.mem_mergeSort, List.mem_filter] at hr
      exact by simpa using hr.2
    refine List.Pairwise.imp_of_mem ?_ hsorted
    intro a b ha hb hab
    have haP := hmemP a ha
    have hbP := hmemP b hb
    simp only [rowLE, Bool.or_eq_true, decide_eq_true_eq, Bool.and_eq_true,
      beq_iff_eq] at hab
    rcases hab with hab | ⟨_, hab⟩
    · rw [haP, hbP] at hab
      exact absurd hab (lt_irrefl P)
    · exact hab
  · intro db project v r
    rw [mem_list_entries_all]
    simp
    tauto

/-- C2 witness: in a store whose project `P` holds versions 1 and 2, the
history listing contains the version-1 row. -/
theorem listEntries_latest_default_witness :
    ((⟨1, "f", 1, "P", "d", "spdx", some 1, "t"⟩ : FileRow),
     (⟨1, "v", "p", "1", "L"⟩ : DataRow)) ∈
      (list_entries_all
        ⟨[⟨1, "f", 1, "P", "d", "spdx", some 1, "t"⟩,
          ⟨2, "g", 2, "P", "d", "spdx", some 1, "t"⟩],
         [⟨1, "v", "p", "1", "L"⟩, ⟨2, "v", "p", "2", "L"⟩],
         ["initialise"]⟩ "P" true none).2 :=
  (listEntries_latest_default.2.1
    ⟨[⟨1, "f", 1, "P", "d", "spdx", some 1, "t"⟩,
      ⟨2, "g", 2, "P", "d", "spdx", some 1, "t"⟩],
     [⟨1, "v", "p", "1", "L"⟩, ⟨2, "v", "p", "2", "L"⟩],
     ["initialise"]⟩ "P"
    (⟨1, "f", 1, "P", "d", "spdx", some 1, "t"⟩, ⟨1, "v", "p", "1", "L"⟩)
    (by decide)).mpr (by decide)

/-! ## C5 — string toolkit -/

theorem splitCL_ne_nil (c : Char) (l : List Char) : splitCL c l ≠ [] := by
  cases l with
  | nil => simp [splitCL]
  | cons x xs =>
    unfold splitCL
    split
    · simp
    · cases splitCL c xs <;> simp

theorem splitCL_of_not_mem (c : Char) (l : List Char) (h : c ∉ l) :
    splitCL c l = [l] := by
  induction l with
  | nil => rfl
  | cons x xs ih =>
    have hx : ¬ x = c := fun he => h (he ▸ List.mem_cons_self x xs)
    have hxs : c ∉ xs := fun hm => h (List.mem_cons_of_mem x hm)
    unfold splitCL
    rw [if_neg hx, ih hxs]

theorem splitCL_append (c : Char) (l₁ l₂ : List Char) (h : c ∉ l₁) :
    splitCL c (l₁ ++ c :: l₂) = l₁ :: splitCL c l₂ := by
  induction l₁ with
  | nil =>
    show splitCL c (c :: l₂) = [] :: splitCL c l₂
    conv_lhs => unfold splitCL
    rw [if_pos rfl]
  | cons x xs ih =>
    have hx : ¬ x = c := fun he => h (he ▸ List.mem_cons_self x xs)
    have hxs : c ∉ xs := fun hm => h (List.mem_cons_of_mem x hm)
    show splitCL c (x :: (xs ++ c :: l₂)) = (x :: xs) :: splitCL c l₂
    conv_lhs => unfold splitCL
    rw [if_neg hx, ih hxs]

theorem mem_splitCL (c : Char) (l : List Char) (e : List Char)
    (h : e ∈ splitCL c l) : c ∉ e ∧ ∀ x ∈ e, x ∈ l := by
  induction l generalizing e with
  | nil =>
    rcases List.mem_singleton.mp h with rfl
    exact ⟨by simp, by simp⟩
  | cons x xs ih =>
    unfold splitCL at h
    by_cases hx : x = c
    · rw [if_pos hx] at h
      rcases List.mem_cons.mp h with rfl | h
      · exact ⟨by simp, by simp⟩
      · obtain ⟨h1, h2⟩ := ih e h
        exact ⟨h1, fun y hy => List.mem_cons_of_mem x (h2 y hy)⟩
    · rw [if_neg hx] at h
      cases hsp : splitCL c xs with
      | nil => exact absurd hsp (splitCL_ne_nil c xs)
      | cons hd tl =>
        rw [hsp] at h
        rcases List.mem_cons.mp h with rfl | h
        · obtain ⟨h1, h2⟩ := ih hd (hsp ▸ List.mem_cons_self hd tl)
          refine ⟨?_, ?_⟩
          · intro hc
            rcases List.mem_cons.mp hc with rfl | hc
            · exact hx rfl
            · exact h1 hc
          · intro y hy
            rcases List.mem_cons.mp hy with rfl | hy
            · exact List.mem_cons_self y xs
            · exact List.mem_cons_of_mem x (h2 y hy)
        · obtain ⟨h1, h2⟩ := ih e (hsp ▸ List.mem_cons_of_mem hd h)
          exact ⟨h1, fun y hy => List.mem_cons_of_mem x (h2 y hy)⟩

theorem pySplit_ne_nil (c : Char) (s : String) : pySplit c s ≠ [] := by
  unfold pySplit
  intro h
  exact splitCL_ne_nil c s.data (List.map_eq_nil_iff.mp h)

theorem pySplit_of_not_mem (c : Char) (s : String) (h : c ∉ s.data) :
    pySplit c s = [s] := by
  unfold pySplit
  rw [splitCL_of_not_mem c s.data h]
  rfl

theorem mem_pySplit (c : Char) (s e : String) (h : e ∈ pySplit c s) :
    c ∉ e.data ∧ ∀ x ∈ e.data, x ∈ s.data := by
  unfold pySplit at h
  rw [List.mem_map] at h
  obtain ⟨d, hd, rfl⟩ := h
  exact mem_splitCL c s.data d hd

theorem headD_mem {α : Type} {l : List α} (h : l ≠ []) (d : α) :
    l.headD d ∈ l := by
  cases l with
  | nil => exact absurd rfl h
  | cons x xs => exact List.mem_cons_self x xs

/-- Splitting a generated `tag ++ ": " ++ value` line on `:`: the first
field is the tag whatever the value contains. -/
theorem tag_line_data (tag v : String) :
    (tag ++ ": " ++ v).data = tag.data ++ ':' :: (' ' :: v.data) := by
  rw [String.data_append, String.data_append, List.append_assoc]
  rfl

theorem pySplit_headD_tag (tag v : String) (ht : ':' ∉ tag.data) :
    (pySplit ':' (tag ++ ": " ++ v)).headD "" = tag := by
  unfold pySplit
  rw [tag_line_data, splitCL_append ':' tag.data _ ht]
  rfl

theorem pySplit_tag_value (tag v : String) (ht : ':' ∉ tag.data)
    (hv : ':' ∉ v.data) :
    pySplit ':' (tag ++ ": " ++ v) = [tag, ⟨' ' :: v.data⟩] := by
  unfold pySplit
  rw [tag_line_data, splitCL_append ':' tag.data _ ht,
    splitCL_of_not_mem ':' (' ' :: v.data) (by simpa using hv)]
  rfl

theorem dropWhile_head_false {α : Type} {p : α → Bool} :
    ∀ {l : List α} {a : α} {t : List α},
      List.dropWhile p l = a :: t → p a = false := by
  intro l
  induction l with
  | nil => intro a t h; cases h
  | cons x xs ih =>
    intro a t h
    rw [List.dropWhile_cons] at h
    split at h
    · exact ih h
    · rename_i hpx
      injection h with h1 _
      rw [h1] at hpx
      simpa using hpx

theorem dropWhile_idem {α : Type} {p : α → Bool} (l : List α) :
    List.dropWhile p (List.dropWhile p l) = List.dropWhile p l := by
  cases hd : List.dropWhile p l with
  | nil => rfl
  | cons a t =>
    rw [List.dropWhile_cons, dropWhile_head_false hd]
    simp

theorem pyStripData_reverse (l : List Char) :
    (pyStripData l).reverse = List.dropWhile isWS (l.dropWhile isWS).reverse := by
  unfold pyStripData
  rw [List.reverse_reverse]

theorem pyStripData_prefix_of_dropWhile (l : List Char) :
    pyStripData l <+: l.dropWhile isWS := by
  rw [← List.reverse_suffix, pyStripData_reverse]
  exact List.dropWhile_suffix isWS

theorem pyStripData_head_not_ws (l : List Char) (a : Char) (t : List Char)
    (h : pyStripData l = a :: t) : isWS a = false := by
  obtain ⟨r, hr⟩ := pyStripData_prefix_of_dropWhile l
  rw [h] at hr
  exact dropWhile_head_false hr.symm

theorem pyStripData_idem (l : List Char) :
    pyStripData (pyStripData l) = pyStripData l := by
  have h1 : List.dropWhile isWS (pyStripData l) = pyStripData l := by
    cases hy : pyStripData l with
    | nil => rfl
    | cons a t =>
      rw [List.dropWhile_cons, pyStripData_head_not_ws l a t hy]
      simp
  have h2 : List.dropWhile isWS (pyStripData l).reverse =
      (pyStripData l).reverse := by
    rw [pyStripData_reverse, dropWhile_idem]
  show ((List.dropWhile isWS (pyStripData l)).reverse.dropWhile isWS).reverse
      = pyStripData l
  rw [h1, h2, List.reverse_reverse]

theorem mem_pyStripData (l : List Char) (x : Char) (h : x ∈ pyStripData l) :
    x ∈ l := by
  unfold pyStripData at h
  rw [List.mem_reverse] at h
  have h1 := (List.dropWhile_sublist isWS).subset h
  rw [List.mem_reverse] at h1
  exact (List.dropWhile_sublist isWS).subset h1

theorem trimFixed_pyStrip (s : String) : trimFixed (pyStrip s) :=
  congrArg String.mk (pyStripData_idem s.data)

theorem mem_pyStrip (s : String) (x : Char) (h : x ∈ (pyStrip s).data) :
    x ∈ s.data :=
  mem_pyStripData s.data x h

theorem pyStrip_space_cons (p : String) :
    pyStrip ⟨' ' :: p.data⟩ = pyStrip p := by
  unfold pyStrip pyStripData
  rw [show (String.mk (' ' :: p.data)).data = ' ' :: p.data from rfl,
    List.dropWhile_cons]
  simp [isWS]

theorem pyRstripData_stripData (l : List Char) :
    pyRstripData '\n' (pyStripData l) = pyStripData l := by
  unfold pyRstripData
  have h : List.dropWhile (· = '\n') (pyStripData l).reverse =
      (pyStripData l).reverse := by
    cases hz : (pyStripData l).reverse with
    | nil => rfl
    | cons a t =>
      have ha : isWS a = false := by
        rw [pyStripData_reverse] at hz
        exact dropWhile_head_false hz
      have ha2 : (a = '\n') = False := by
        simp only [eq_iff_iff, iff_false]
        intro he
        rw [he] at ha
        simp [isWS] at ha
      rw [List.dropWhile_cons]
      simp [ha2]
  rw [h, List.reverse_reverse]

theorem pyRstripNl_pyStrip (s : String) :
    pyRstripNl (pyStrip s) = pyStrip s :=
  congrArg String.mk (pyRstripData_stripData s.data)

theorem pyRstripNl_of_trimFixed (s : String) (h : trimFixed s) :
    pyRstripNl s = s := by
  conv_lhs => rw [← h]
  rw [pyRstripNl_pyStrip, h]

theorem stripSuffixes_of_not_mem (v : String) (h1 : '-' ∉ v.data)
    (h2 : '+' ∉ v.data) : stripSuffixes v = v := by
  unfold stripSuffixes
  rw [pySplit_of_not_mem '-' v h1]
  show (pySplit '+' v).headD "" = v
  rw [pySplit_of_not_mem '+' v h2]
  rfl

theorem stripSuffixes_wf (x : String) :
    '-' ∉ (stripSuffixes x).data ∧ '+' ∉ (stripSuffixes x).data ∧
    ∀ ch ∈ (stripSuffixes x).data, ch ∈ x.data := by
  unfold stripSuffixes
  have hy : (pySplit '-' x).headD "" ∈ pySplit '-' x :=
    headD_mem (pySplit_ne_nil '-' x) ""
  obtain ⟨hy1, hy2⟩ := mem_pySplit '-' x _ hy
  have hz : (pySplit '+' ((pySplit '-' x).headD "")).headD "" ∈
      pySplit '+' ((pySplit '-' x).headD "") :=
    headD_mem (pySplit_ne_nil '+' _) ""
  obtain ⟨hz1, hz2⟩ := mem_pySplit '+' _ _ hz
  exact ⟨fun hm => hy1 (hz2 _ hm), hz1, fun ch hm => hy2 ch (hz2 ch hm)⟩

theorem pyIndex1_mem (els : List String) (e : String)
    (h : pyIndex1 els = Except.ok e) : e ∈ els := by
  unfold pyIndex1 at h
  cases hg : els.get? 1 with
  | none => rw [hg] at h; cases h
  | some x =>
    rw [hg] at h
    injection h with h
    exact h ▸ List.get?_mem hg

theorem digitChar_big (d : Nat) (h : 16 ≤ d) : Nat.digitChar d = '*' := by
  have h0 : ¬ d = 0 := by omega
  have h1 : ¬ d = 1 := by omega
  have h2 : ¬ d = 2 := by omega
  have h3 : ¬ d = 3 := by omega
  have h4 : ¬ d = 4 := by omega
  have h5 : ¬ d = 5 := by omega
  have h6 : ¬ d = 6 := by omega
  have h7 : ¬ d = 7 := by omega
  have h8 : ¬ d = 8 := by omega
  have h9 : ¬ d = 9 := by omega
  have h10 : ¬ d = 10 := by omega
  have h11 : ¬ d = 11 := by omega
  have h12 : ¬ d = 12 := by omega
  have h13 : ¬ d = 13 := by omega
  have h14 : ¬ d = 14 := by omega
  have h15 : ¬ d = 15 := by omega
  simp [Nat.digitChar, h0, h1, h2, h3, h4, h5, h6, h7, h8, h9, h10, h11,
    h12, h13, h14, h15]

theorem digitChar_ne (d : Nat) :
    Nat.digitChar d ≠ '\n' ∧ Nat.digitChar d ≠ ':' := by
  rcases Nat.lt_or_ge d 16 with h | h
  · interval_cases d <;> exact ⟨by decide, by decide⟩
  · rw [digitChar_big d h]
    exact ⟨by decide, by decide⟩

theorem toDigitsCore_mem (b : Nat) :
    ∀ (fuel n : Nat) (ds : List Char) (c : Char),
      c ∈ Nat.toDigitsCore b fuel n ds → c ∈ ds ∨ ∃ d, c = Nat.digitChar d := by
  intro fuel
  induction fuel with
  | zero => intro n ds c hc; exact Or.inl hc
  | succ fuel ih =>
    intro n ds c hc
    rw [show Nat.toDigitsCore b (fuel + 1) n ds =
        (if n / b = 0 then Nat.digitChar (n % b) :: ds
         else Nat.toDigitsCore b fuel (n / b)
            (Nat.digitChar (n % b) :: ds)) from rfl] at hc
    split at hc
    · rcases List.mem_cons.mp hc with rfl | hc
      · exact Or.inr ⟨n % b, rfl⟩
      · exact Or.inl hc
    · rcases ih (n / b) (Nat.digitChar (n % b) :: ds) c hc with h | h
      · rcases List.mem_cons.mp h with rfl | h
        · exact Or.inr ⟨n % b, rfl⟩
        · exact Or.inl h
      · exact Or.inr h

/-- Decimal `str(id)` never contains a newline or a colon. -/
theorem repr_no_nl_colon (n : Nat) :
    '\n' ∉ (toString n).data ∧ ':' ∉ (toString n).data := by
  have hs : (toString n).data = Nat.toDigitsCore 10 (n + 1) n [] := rfl
  constructor <;> intro h <;> rw [hs] at h <;>
    rcases toDigitsCore_mem 10 (n + 1) n [] _ h with h | ⟨d, hd⟩ <;>
      first
        | cases h
        | exact (digitChar_ne d).1 hd.symm
        | exact (digitChar_ne d).2 hd.symm

/-! ## C5 — invariants of the tag/value normalizer's output -/

theorem wfState_flush (st : SpdxState) (h : wfState st) :
    ∀ m ∈ spdxFlush st, wfProdVal m.product ∧ wfVerVal m.version := by
  unfold spdxFlush
  split
  · intro m hm
    rcases List.mem_append.mp hm with hm | hm
    · exact h.1 m hm
    · rcases List.mem_singleton.mp hm with rfl
      exact ⟨h.2.1, h.2.2⟩
  · exact h.1

theorem wfVerVal_empty : wfVerVal "" := ⟨by simp, by simp, by simp, by simp⟩

theorem wfProdVal_empty : wfProdVal "" := ⟨rfl, by simp, by simp⟩

theorem spdxStep_wfState (st : SpdxState) (line : String) (st' : SpdxState)
    (hnl : '\n' ∉ line.data) (h : spdxStep st line = Except.ok st')
    (hw : wfState st) : wfState st' := by
  unfold spdxStep at h
  by_cases h1 : (pySplit ':' line).headD "" = "PackageName"
  · rw [if_pos h1] at h
    cases hidx : pyIndex1 (pySplit ':' line) with
    | error e => rw [hidx] at h; cases h
    | ok e1 =>
      rw [hidx] at h
      injection h with h
      obtain ⟨hc, hsub⟩ := mem_pySplit ':' line e1 (pyIndex1_mem _ _ hidx)
      rw [← h]
      refine ⟨wfState_flush st hw, ?_, wfVerVal_empty⟩
      show wfProdVal (pyRstripNl (pyStrip e1))
      rw [pyRstripNl_pyStrip]
      exact ⟨trimFixed_pyStrip e1,
        fun hm => hc (mem_pyStrip e1 ':' hm),
        fun hm => hnl (hsub '\n' (mem_pyStrip e1 '\n' hm))⟩
  · rw [if_neg h1] at h
    by_cases h2 : (pySplit ':' line).headD "" = "PackageVersion"
    · rw [if_pos h2] at h
      cases hidx : pyIndex1 (pySplit ':' line) with
      | error e => rw [hidx] at h; cases h
      | ok e1 =>
        rw [hidx] at h
        injection h with h
        obtain ⟨hc, hsub⟩ := mem_pySplit ':' line e1 (pyIndex1_mem _ _ hidx)
        rw [← h]
        refine ⟨hw.1, hw.2.1, ?_⟩
        show wfVerVal (stripSuffixes (pyRstripNl (pyStrip e1)))
        rw [pyRstripNl_pyStrip]
        obtain ⟨hd, hp, hsub2⟩ := stripSuffixes_wf (pyStrip e1)
        exact ⟨fun hm => hc (mem_pyStrip e1 ':' (hsub2 ':' hm)),
          fun hm => hnl (hsub '\n' (mem_pyStrip e1 '\n' (hsub2 '\n' hm))),
          hd, hp⟩
    · rw [if_neg h2] at h
      by_cases h3 : (pySplit ':' line).headD "" = "PackageLicenseConcluded"
      · rw [if_pos h3] at h
        cases hidx : pyIndex1 (pySplit ':' line) with
        | error e => rw [hidx] at h; cases h
        | ok e1 =>
          rw [hidx] at h
          injection h with h
          rw [← h]
          exact ⟨hw.1, hw.2.1, hw.2.2⟩
      · rw [if_neg h3] at h
        injection h with h
        rw [← h]
        exact hw

theorem processSpdxFrom_wfState (lines : List String) :
    ∀ st st' : SpdxState, processSpdxFrom st lines = Except.ok st' →
      (∀ l ∈ lines, '\n' ∉ l.data) → wfState st → wfState st' := by
  induction lines with
  | nil =>
    intro st st' h _ hw
    simp [processSpdxFrom, List.foldlM, pure, Except.pure] at h
    rwa [← h]
  | cons l rest ih =>
    intro st st' h hl hw
    rw [processSpdxFrom, List.foldlM_cons] at h
    cases hstep : spdxStep st l with
    | error e => simp [hstep, Bind.bind, Except.bind] at h
    | ok st1 =>
      simp only [hstep, Bind.bind, Except.bind] at h
      exact ih st1 st' h (fun x hx => hl x (List.mem_cons_of_mem l hx))
        (spdxStep_wfState st l st1 (hl l (List.mem_cons_self l rest)) hstep hw)

/-- Invariant of `process_spdx_file`'s output: on newline-free input lines,
every emitted module has a stripped, `:`-free, newline-free product and a
`:`/`-`/`+`/newline-free version. -/
theorem process_spdx_wf (lines : List String) (mods : List Module)
    (hok : process_spdx_file lines = Except.ok mods)
    (hl : ∀ l ∈ lines, '\n' ∉ l.data) :
    ∀ m ∈ mods, wfProdVal m.product ∧ wfVerVal m.version := by
  unfold process_spdx_file at hok
  cases hst : processSpdxFrom spdxInit lines with
  | error e => rw [hst] at hok; cases hok
  | ok st =>
    simp only [hst, Bind.bind, Except.bind, pure, Except.pure,
      Except.ok.injEq] at hok
    have hw := processSpdxFrom_wfState lines spdxInit st hst hl
      ⟨(by intro m hm; cases hm), wfProdVal_empty, wfVerVal_empty⟩
    exact fun m hm => wfState_flush st hw m (hok ▸ hm)

/-- Combined with `goodMods` and the amendment's trim-fixed hypothesis,
every emitted module is ready for the generated document's reparse. -/
theorem process_spdx_roundTripReady (lines : List String) (mods : List Module)
    (hok : process_spdx_file lines = Except.ok mods)
    (hl : ∀ l ∈ lines, '\n' ∉ l.data)
    (htrim : ∀ m ∈ mods, trimFixed m.version) :
    ∀ m ∈ mods, roundTripReady m := by
  intro m hm
  obtain ⟨hp, hv⟩ := process_spdx_wf lines mods hok hl m hm
  have hg : goodMods mods := by
    intro m' hm'
    unfold process_spdx_file at hok
    cases hst : processSpdxFrom spdxInit lines with
    | error e => rw [hst] at hok; cases hok
    | ok st =>
      simp only [hst, Bind.bind, Except.bind, pure, Except.pure,
        Except.ok.injEq] at hok
      exact goodMods_flush st
        (processSpdxFrom_goodMods lines spdxInit st hst
          (by intro x hx; cases hx)) m' (hok ▸ hm')
  obtain ⟨hpn, hvn⟩ := hg m hm
  exact ⟨hp, hpn, hv, hvn, htrim m hm⟩

/-! ## C5 — reparsing the generated document -/

theorem nl_not_mem_tagline (tag v : String) (ht : '\n' ∉ tag.data)
    (hv : '\n' ∉ v.data) : '\n' ∉ (tag ++ ": " ++ v).data := by
  rw [tag_line_data]
  intro hc
  rcases List.mem_append.mp hc with hc | hc
  · exact ht hc
  · rcases List.mem_cons.mp hc with h | hc
    · exact absurd h (by decide)
    · rcases List.mem_cons.mp hc with h | hc
      · exact absurd h (by decide)
      · exact hv hc

theorem nl_not_mem_append (s t : String) (hs : '\n' ∉ s.data)
    (ht : '\n' ∉ t.data) : '\n' ∉ (s ++ t).data := by
  rw [String.data_append]
  intro hc
  rcases List.mem_append.mp hc with hc | hc
  · exact hs hc
  · exact ht hc

theorem nl_not_mem_replace (s : String) (h : '\n' ∉ s.data) :
    '\n' ∉ (pyReplaceSpaceDash s).data := by
  unfold pyReplaceSpaceDash
  intro hc
  rw [show (String.mk (s.data.map fun c => if c = ' ' then '-' else c)).data
      = s.data.map fun c => if c = ' ' then '-' else c from rfl,
    List.mem_map] at hc
  obtain ⟨c, hcm, hce⟩ := hc
  split at hce
  · exact absurd hce (by decide)
  · exact h (hce ▸ hcm)

/-- A line whose first `:`-field is none of the three tags leaves the
parser state unchanged. -/
theorem spdxStep_skip (st : SpdxState) (line : String)
    (h1 : (pySplit ':' line).headD "" ≠ "PackageName")
    (h2 : (pySplit ':' line).headD "" ≠ "PackageVersion")
    (h3 : (pySplit ':' line).headD "" ≠ "PackageLicenseConcluded") :
    spdxStep st line = Except.ok st := by
  unfold spdxStep
  rw [if_neg h1, if_neg h2, if_neg h3]

theorem spdxStep_skip_tagline (tag : String) (ht : ':' ∉ tag.data)
    (h1 : tag ≠ "PackageName") (h2 : tag ≠ "PackageVersion")
    (h3 : tag ≠ "PackageLicenseConcluded") (v : String) (st : SpdxState) :
    spdxStep st (tag ++ ": " ++ v) = Except.ok st := by
  have hh := pySplit_headD_tag tag v ht
  exact spdxStep_skip st _ (by rw [hh]; exact h1) (by rw [hh]; exact h2)
    (by rw [hh]; exact h3)

/-- The generated `Creator: Tool: ...` line is a non-tag line: its first
`:`-field is `Creator`. -/
theorem spdxStep_skip_creator (v : String) (st : SpdxState) :
    spdxStep st ("Creator: Tool" ++ ": " ++ v) = Except.ok st := by
  have hh : (pySplit ':' ("Creator: Tool" ++ ": " ++ v)).headD "" =
      "Creator" := by
    have hd : ("Creator: Tool" ++ ": " ++ v).data =
        "Creator".data ++ ':' :: (" Tool: " ++ v).data := by
      rw [tag_line_data, String.data_append]
      rfl
    unfold pySplit
    rw [hd, splitCL_append ':' "Creator".data _ (by decide)]
    rfl
  exact spdxStep_skip st _ (by rw [hh]; decide) (by rw [hh]; decide)
    (by rw [hh]; decide)

/-- The `PackageName: <p>` line of a generated block: flush, then start a
block with product `p`. -/
theorem spdxStep_packageName (p : String) (hc : ':' ∉ p.data)
    (htf : trimFixed p) (st : SpdxState) :
    spdxStep st ("PackageName" ++ ": " ++ p) =
      Except.ok { mods := spdxFlush st, vendor := st.vendor, product := p,
                  version := "", license := "" } := by
  have hval : pyRstripNl (pyStrip ⟨' ' :: p.data⟩) = p := by
    rw [pyStrip_space_cons, htf]
    exact pyRstripNl_of_trimFixed p htf
  unfold spdxStep pyIndex1
  rw [pySplit_tag_value "PackageName" p (by decide) hc]
  simp [hval]

/-- The `PackageVersion: <v>` line of a generated block sets the version
back to exactly `v` when `v` is stripped and `-`/`+`-free. -/
theorem spdxStep_packageVersion (v : String) (hc : ':' ∉ v.data)
    (htf : trimFixed v) (hd : '-' ∉ v.data) (hp : '+' ∉ v.data)
    (st : SpdxState) :
    spdxStep st ("PackageVersion" ++ ": " ++ v) =
      Except.ok { st with version := v } := by
  have hval : stripSuffixes (pyRstripNl (pyStrip ⟨' ' :: v.data⟩)) = v := by
    rw [pyStrip_space_cons, htf, pyRstripNl_of_trimFixed v htf]
    exact stripSuffixes_of_not_mem v hd hp
  unfold spdxStep pyIndex1
  rw [pySplit_tag_value "PackageVersion" v (by decide) hc]
  simp [hval]

theorem spdxStep_license (st : SpdxState) :
    spdxStep st "PackageLicenseConcluded: NOASSERTION" =
      Except.ok { st with license := "NOASSERTION" } := rfl

theorem spdxStep_empty (st : SpdxState) : spdxStep st "" = Except.ok st :=
  rfl

/-- The physical lines of one generated package block. -/
theorem docToLines_block (i : Nat) (m : Module)
    (hpnl : '\n' ∉ m.product.data) (hvnl : '\n' ∉ m.version.data) :
    docToLines (generatePackageDetails m.product i m.version) =
      ["", "PackageName" ++ ": " ++ m.product,
       "SPDXID" ++ ": " ++ ("SPDXRef-Package-" ++ toString i),
       "PackageVersion" ++ ": " ++ m.version,
       "PackageDownloadLocation: NONE",
       "FilesAnalyzed: false",
       "PackageLicenseConcluded: NOASSERTION",
       "PackageLicenseDeclared: NOASSERTION",
       "PackageCopyrightText: NOASSERTION",
       "", "Relationship" ++ ": " ++
         ("SPDXRef-DOCUMENT CONTAINS SPDXRef-Package-" ++ toString i)] := by
  have hinl : '\n' ∉ (toString i).data := (repr_no_nl_colon i).1
  have h1 : pySplit '\n' ("\nPackageName" ++ ": " ++ m.product) =
      ["", "PackageName" ++ ": " ++ m.product] := by
    unfold pySplit
    rw [show ("\nPackageName" ++ ": " ++ m.product).data =
        '\n' :: ("PackageName" ++ ": " ++ m.product).data from by
      rw [tag_line_data, tag_line_data]; rfl]
    rw [show splitCL '\n'
          ('\n' :: ("PackageName" ++ ": " ++ m.product).data) =
        [] :: splitCL '\n' (("PackageName" ++ ": " ++ m.product).data)
        from by conv_lhs => unfold splitCL; rw [if_pos rfl]]
    rw [splitCL_of_not_mem '\n' _
      (nl_not_mem_tagline "PackageName" m.product (by decide) hpnl)]
    rfl
  have h2 : pySplit '\n'
      ("SPDXID" ++ ": " ++ ("SPDXRef-Package-" ++ toString i)) =
      ["SPDXID" ++ ": " ++ ("SPDXRef-Package-" ++ toString i)] :=
    pySplit_of_not_mem '\n' _
      (nl_not_mem_tagline "SPDXID" _ (by decide)
        (nl_not_mem_append "SPDXRef-Package-" _ (by decide) hinl))
  have h3 : pySplit '\n' ("PackageVersion" ++ ": " ++ m.version) =
      ["PackageVersion" ++ ": " ++ m.version] :=
    pySplit_of_not_mem '\n' _
      (nl_not_mem_tagline "PackageVersion" m.version (by decide) hvnl)
  have h4 : pySplit '\n' ("\nRelationship" ++ ": " ++
      ("SPDXRef-DOCUMENT CONTAINS SPDXRef-Package-" ++ toString i)) =
      ["", "Relationship" ++ ": " ++
        ("SPDXRef-DOCUMENT CONTAINS SPDXRef-Package-" ++ toString i)] := by
    unfold pySplit
    rw [show ("\nRelationship" ++ ": " ++
        ("SPDXRef-DOCUMENT CONTAINS SPDXRef-Package-" ++ toString i)).data =
        '\n' :: ("Relationship" ++ ": " ++
          ("SPDXRef-DOCUMENT CONTAINS SPDXRef-Package-" ++ toString i)).data
        from by rw [tag_line_data, tag_line_data]; rfl]
    rw [show splitCL '\n'
          ('\n' :: ("Relationship" ++ ": " ++
            ("SPDXRef-DOCUMENT CONTAINS SPDXRef-Package-" ++
              toString i)).data) =
        [] :: splitCL '\n' (("Relationship" ++ ": " ++
          ("SPDXRef-DOCUMENT CONTAINS SPDXRef-Package-" ++
            toString i)).data)
        from by conv_lhs => unfold splitCL; rw [if_pos rfl]]
    rw [splitCL_of_not_mem '\n' _
      (nl_not_mem_tagline "Relationship" _ (by decide)
        (nl_not_mem_append "SPDXRef-DOCUMENT CONTAINS SPDXRef-Package-" _
          (by decide) hinl))]
    rfl
  unfold docToLines generatePackageDetails generateTag
  simp only [List.flatMap_cons, List.flatMap_nil, List.append_nil]
  rw [h1, h2, h3, h4,
    pySplit_of_not_mem '\n' ("PackageDownloadLocation" ++ ": " ++ "NONE")
      (by decide),
    pySplit_of_not_mem '\n' ("FilesAnalyzed" ++ ": " ++ "false")
      (by decide),
    pySplit_of_not_mem '\n' ("PackageLicenseConcluded" ++ ": " ++
      "NOASSERTION") (by decide),
    pySplit_of_not_mem '\n' ("PackageLicenseDeclared" ++ ": " ++
      "NOASSERTION") (by decide),
    pySplit_of_not_mem '\n' ("PackageCopyrightText" ++ ": " ++
      "NOASSERTION") (by decide)]
  rfl

/-- Reparsing one generated block from any state: the previous in-progress
record is flushed and the state holds exactly this block's product and
version. -/
theorem processFrom_blockLines (st : SpdxState) (i : Nat) (m : Module)
    (hm : roundTripReady m) :
    processSpdxFrom st
        (docToLines (generatePackageDetails m.product i m.version)) =
      Except.ok { mods := spdxFlush st, vendor := st.vendor,
                  product := m.product, version := m.version,
                  license := "NOASSERTION" } := by
  obtain ⟨⟨hptf, hpc, hpnl⟩, hpne, ⟨hvc, hvnl, hvd, hvp⟩, hvne, hvtf⟩ := hm
  rw [docToLines_block i m hpnl hvnl]
  unfold processSpdxFrom
  simp only [List.foldlM_cons, List.foldlM_nil, Bind.bind, Except.bind,
    spdxStep_empty, spdxStep_packageName m.product hpc hptf,
    spdxStep_skip_tagline "SPDXID" (by decide) (by decide) (by decide)
      (by decide),
    spdxStep_packageVersion m.version hvc hvtf hvd hvp,
    spdxStep_license,
    spdxStep_skip_tagline "Relationship" (by decide) (by decide) (by decide)
      (by decide),
    show ∀ st : SpdxState,
        spdxStep st "PackageDownloadLocation: NONE" = Except.ok st
      from fun _ => rfl,
    show ∀ st : SpdxState, spdxStep st "FilesAnalyzed: false" = Except.ok st
      from fun _ => rfl,
    show ∀ st : SpdxState,
        spdxStep st "PackageLicenseDeclared: NOASSERTION" = Except.ok st
      from fun _ => rfl,
    show ∀ st : SpdxState,
        spdxStep st "PackageCopyrightText: NOASSERTION" = Except.ok st
      from fun _ => rfl, pure, Except.pure]

theorem docToLines_append (a b : List String) :
    docToLines (a ++ b) = docToLines a ++ docToLines b :=
  List.flatMap_append a b _

theorem processSpdxFrom_append_ok (l₁ l₂ : List String) (st st1 : SpdxState)
    (h : processSpdxFrom st l₁ = Except.ok st1) :
    processSpdxFrom st (l₁ ++ l₂) = processSpdxFrom st1 l₂ := by
  induction l₁ generalizing st with
  | nil =>
    simp [processSpdxFrom, List.foldlM, pure, Except.pure] at h
    rw [← h]
    rfl
  | cons x xs ih =>
    rw [List.cons_append, processSpdxFrom, List.foldlM_cons] at *
    cases hstep : spdxStep st x with
    | error e => simp [hstep, Bind.bind, Except.bind] at h
    | ok s =>
      simp only [hstep, Bind.bind, Except.bind] at h ⊢
      exact ih s h

/-- Reparsing all generated blocks: flushing at the end yields the previous
flush followed by one module per block, carrying the block's product and
version. -/
theorem processFrom_blocks (ms : List Module) :
    ∀ (i : Nat) (st : SpdxState), (∀ m ∈ ms, roundTripReady m) →
    ∃ st', processSpdxFrom st (docToLines (generatePackages i ms)) =
        Except.ok st' ∧
      spdxFlush st' = spdxFlush st ++ ms.map
        (fun m => ⟨st.vendor, m.product, m.version, "NOASSERTION"⟩) ∧
      st'.vendor = st.vendor := by
  induction ms with
  | nil =>
    intro i st _
    exact ⟨st, rfl, by simp, rfl⟩
  | cons m rest ih =>
    intro i st hms
    have hm := hms m (List.mem_cons_self m rest)
    have hblock := processFrom_blockLines st i m hm
    rw [show generatePackages i (m :: rest) =
        generatePackageDetails m.product i m.version ++
          generatePackages (i + 1) rest from rfl,
      docToLines_append,
      processSpdxFrom_append_ok _ _ _ _ hblock]
    obtain ⟨st', hst', hflush, hvendor⟩ :=
      ih (i + 1)
        ⟨spdxFlush st, st.vendor, m.product, m.version, "NOASSERTION"⟩
        (fun x hx => hms x (List.mem_cons_of_mem m hx))
    refine ⟨st', hst', ?_, by simpa using hvendor⟩
    rw [hflush]
    have hfl : spdxFlush
        ⟨spdxFlush st, st.vendor, m.product, m.version, "NOASSERTION"⟩ =
        spdxFlush st ++ [⟨st.vendor, m.product, m.version, "NOASSERTION"⟩] := by
      unfold spdxFlush
      rw [if_pos ⟨hm.2.1, hm.2.2.2.1⟩]
    rw [hfl]
    simp

/-- The nine generated header lines are all non-tag lines: reparsing them
leaves the initial state untouched. -/
theorem processFrom_header (st : SpdxState) (p u t v : String)
    (hp : '\n' ∉ p.data) (hu : '\n' ∉ u.data) (ht : '\n' ∉ t.data)
    (hv : '\n' ∉ v.data) :
    processSpdxFrom st (docToLines (generateDocumentHeader p u t v)) =
      Except.ok st := by
  unfold generateDocumentHeader generateTag docToLines
  simp only [List.flatMap_cons, List.flatMap_nil, List.append_nil]
  rw [pySplit_of_not_mem '\n' ("SPDXVersion" ++ ": " ++ "SPDX-2.2")
      (by decide),
    pySplit_of_not_mem '\n' ("DataLicense" ++ ": " ++ "CC0-1.0")
      (by decide),
    pySplit_of_not_mem '\n' ("SPDXID" ++ ": " ++ "SPDXRef-DOCUMENT")
      (by decide),
    pySplit_of_not_mem '\n' ("DocumentName" ++ ": " ++ pyReplaceSpaceDash p)
      (nl_not_mem_tagline "DocumentName" _ (by decide)
        (nl_not_mem_replace p hp)),
    pySplit_of_not_mem '\n' ("DocumentNamespace" ++ ": " ++
        ("http://spdx.org/spdxdocs/" ++ pyReplaceSpaceDash p ++ "-" ++ u))
      (nl_not_mem_tagline "DocumentNamespace" _ (by decide)
        (nl_not_mem_append _ u
          (nl_not_mem_append _ "-"
            (nl_not_mem_append "http://spdx.org/spdxdocs/" _ (by decide)
              (nl_not_mem_replace p hp)) (by decide)) hu)),
    pySplit_of_not_mem '\n' ("LicenseListVersion" ++ ": " ++ "3.9")
      (by decide),
    pySplit_of_not_mem '\n' ("Creator: Tool" ++ ": " ++
        ("SPDX_Generator-" ++ v))
      (nl_not_mem_tagline "Creator: Tool" _ (by decide)
        (nl_not_mem_append "SPDX_Generator-" v (by decide) hv)),
    pySplit_of_not_mem '\n' ("Created" ++ ": " ++ t)
      (nl_not_mem_tagline "Created" t (by decide) ht),
    pySplit_of_not_mem '\n' ("CreatorComment" ++ ": " ++
        "<text>This document has been automatically generated.</text>")
      (by decide)]
  show processSpdxFrom st _ = Except.ok st
  unfold processSpdxFrom
  simp only [List.singleton_append, List.foldlM_cons, List.foldlM_nil,
    Bind.bind, Except.bind,
    spdxStep_skip_tagline "SPDXVersion" (by decide) (by decide) (by decide)
      (by decide),
    spdxStep_skip_tagline "DataLicense" (by decide) (by decide) (by decide)
      (by decide),
    spdxStep_skip_tagline "SPDXID" (by decide) (by decide) (by decide)
      (by decide),
    spdxStep_skip_tagline "DocumentName" (by decide) (by decide) (by decide)
      (by decide),
    spdxStep_skip_tagline "DocumentNamespace" (by decide) (by decide)
      (by decide) (by decide),
    spdxStep_skip_tagline "LicenseListVersion" (by decide) (by decide)
      (by decide) (by decide),
    spdxStep_skip_creator,
    spdxStep_skip_tagline "Created" (by decide) (by decide) (by decide)
      (by decide),
    spdxStep_skip_tagline "CreatorComment" (by decide) (by decide)
      (by decide) (by decide), pure, Except.pure]

/-- C5 (amended): tag/value round-trip.  For a document whose lines carry
no embedded newline and whose extracted versions have no trailing
whitespace (`trimFixed`), re-normalizing the generated export yields one
module per original module with the same product and version (vendor
becomes empty and license the `NOASSERTION` placeholder), so the
`(product, version)` pairs — and hence their set — are preserved exactly. -/
theorem spdx_roundtrip_pairs (lines : List String)
    (proj uuid time ver : String) (mods : List Module)
    (hok : process_spdx_file lines = Except.ok mods)
    (hlines : ∀ l ∈ lines, '\n' ∉ l.data)
    (hproj : '\n' ∉ proj.data) (huuid : '\n' ∉ uuid.data)
    (htime : '\n' ∉ time.data) (hver : '\n' ∉ ver.data)
    (htrim : ∀ m ∈ mods, trimFixed m.version) :
    process_spdx_file (docToLines (generate_spdx proj uuid time ver mods)) =
      Except.ok (mods.map fun m => ⟨"", m.product, m.version, "NOASSERTION"⟩) ∧
    pairsOf (mods.map fun m =>
      (⟨"", m.product, m.version, "NOASSERTION"⟩ : Module)) = pairsOf mods ∧
    (pairsOf (mods.map fun m =>
      (⟨"", m.product, m.version, "NOASSERTION"⟩ : Module))).toFinset =
      (pairsOf mods).toFinset := by
  have hready := process_spdx_roundTripReady lines mods hok hlines htrim
  have hpairs : pairsOf (mods.map fun m =>
      (⟨"", m.product, m.version, "NOASSERTION"⟩ : Module)) = pairsOf mods := by
    unfold pairsOf
    rw [List.map_map]
    rfl
  refine ⟨?_, hpairs, by rw [hpairs]⟩
  obtain ⟨st', hst', hflush, _⟩ := processFrom_blocks mods 1 spdxInit hready
  have hfull : processSpdxFrom spdxInit
      (docToLines (generate_spdx proj uuid time ver mods)) =
      Except.ok st' := by
    unfold generate_spdx
    rw [List.append_assoc, docToLines_append,
      processSpdxFrom_append_ok _ _ _ _
        (processFrom_header spdxInit proj uuid time ver hproj huuid htime
          hver),
      docToLines_append,
      processSpdxFrom_append_ok _ _ _ _
        (show processSpdxFrom spdxInit
            (docToLines ["\n\n##### Package"]) = Except.ok spdxInit
          from rfl)]
    exact hst'
  unfold process_spdx_file
  rw [hfull]
  simp only [Bind.bind, Except.bind, pure, Except.pure, Except.ok.injEq]
  rw [hflush]
  rfl

/-- C5 counterexample: the round-trip as claimed fails when a version has
trailing whitespace.  The document `PackageName: foo` /
`PackageVersion: 1.2 -rc` normalizes to the pair `("foo", "1.2 ")`, but
re-normalizing its export yields `("foo", "1.2")`: the pair sets differ. -/
theorem spdx_roundtrip_counterexample :
    process_spdx_file ["PackageName: foo", "PackageVersion: 1.2 -rc"] =
      Except.ok [⟨"", "foo", "1.2 ", ""⟩] ∧
    process_spdx_file (docToLines (generate_spdx "demo" "u" "t" "0.1"
        [⟨"", "foo", "1.2 ", ""⟩])) =
      Except.ok [⟨"", "foo", "1.2", "NOASSERTION"⟩] ∧
    (pairsOf [⟨"", "foo", "1.2 ", ""⟩]).toFinset ≠
      (pairsOf [⟨"", "foo", "1.2", "NOASSERTION"⟩]).toFinset := by
  refine ⟨by decide, by decide, by decide⟩

/-- C5 witness: a concrete round-trip through the amended theorem. -/
theorem spdx_roundtrip_pairs_witness :
    process_spdx_file (docToLines (generate_spdx "demo" "u" "t" "0.1"
        [⟨"", "foo", "2.1", ""⟩])) =
      Except.ok [⟨"", "foo", "2.1", "NOASSERTION"⟩] ∧
    pairsOf [(⟨"", "foo", "2.1", "NOASSERTION"⟩ : Module)] =
      pairsOf [⟨"", "foo", "2.1", ""⟩] := by
  have h := spdx_roundtrip_pairs
    ["PackageName: foo", "PackageVersion: 2.1"] "demo" "u" "t" "0.1"
    [⟨"", "foo", "2.1", ""⟩] (by decide) (by decide) (by decide) (by decide)
    (by decide) (by decide) (by decide)
  exact ⟨h.1, h.2.1⟩

end SbomManager
